import Mathlib

/-!
Verification development for the md-antibiotic-clustering pipeline
(src/step3_clustering.py and src/step5_validation.py).

The Python source is a thin script over library calls (pandas, sklearn,
sklearn_extra.KMedoids, the gower package, numpy).  The repository code is
embedded faithfully below; library routines whose code is not part of the
repository are either modelled from the specification (the Gower distance,
whose algorithm spec section 4.2 states precisely) or abstracted as oracle
inputs (the k-medoids optimiser, the silhouette and adjusted-rand scores),
while their documented input-validation behaviour (raised errors) is
modelled explicitly.  All numeric values are rationals.
-/

namespace MDClustering

/-! Part 1: the Gower distance matrix.

Modelled from the spec: the call gower.gower_matrix(feature_matrix,
cat_features=cat_mask) (step3_clustering.py line 75, step5_validation.py
line 55) is a third-party library routine whose code is not in src/.
Spec section 4.2: a continuous column contributes |v_i - v_j| / range
(0 when the observed range is 0); a categorical/binary column contributes
the 0/1 mismatch indicator; the pairwise distance is the unweighted mean
over all columns.  A column is a list of rational values together with the
categorical flag the caller passes in cat_mask. -/

structure GCol where
  isCat : Bool
  vals : List ℚ
deriving DecidableEq

/-- Maximum of x and the elements of a list. -/
def listMax (x : ℚ) (l : List ℚ) : ℚ := l.foldr max x

/-- Minimum of x and the elements of a list. -/
def listMin (x : ℚ) (l : List ℚ) : ℚ := l.foldr min x

/-- Maximum of the observed values of a column (0 for an empty column). -/
def colMax : List ℚ → ℚ
  | [] => 0
  | x :: l => listMax x l

/-- Minimum of the observed values of a column (0 for an empty column). -/
def colMin : List ℚ → ℚ
  | [] => 0
  | x :: l => listMin x l

/-- Observed range (max - min) of a column. -/
def colRange (vals : List ℚ) : ℚ := colMax vals - colMin vals

/-- Per-column dissimilarity between rows i and j: 0/1 mismatch for a
categorical column, range-normalised absolute difference for a continuous
column (0 when the range is 0). -/
def colDissim (c : GCol) (i j : ℕ) : ℚ :=
  let vi := c.vals.getD i 0
  let vj := c.vals.getD j 0
  if c.isCat then (if vi = vj then 0 else 1)
  else
    let r := colRange c.vals
    if r = 0 then 0 else |vi - vj| / r

/-- Entry (i, j) of the Gower distance matrix: unweighted mean of the
per-column dissimilarities. -/
def gower_matrix (cols : List GCol) (i j : ℕ) : ℚ :=
  (cols.map (fun c => colDissim c i j)).sum / (cols.length : ℚ)

/-! Part 2: model selection over the candidate table.

Embedded from plot_silhouette_scores (step3_clustering.py lines 93-114):
ks = sorted(results.keys()); sils = [results[k]["silhouette"] for k in ks];
best_k = ks[np.argmax(sils)].  The candidate table is a list of
(k, silhouette) pairs with distinct keys, the shallow embedding of the
results dict.  np.argmax returns the first index attaining the maximum. -/

/-- Insertion step of a stable ascending sort. -/
def insertLe {α : Type} [LinearOrder α] (x : α) : List α → List α
  | [] => [x]
  | y :: ys => if x ≤ y then x :: y :: ys else y :: insertLe x ys

/-- Ascending sort of a list; embeds python sorted() and np.sort. -/
def sortedList {α : Type} [LinearOrder α] (l : List α) : List α :=
  l.foldr insertLe []

/-- First index attaining the maximum of a list (np.argmax; 0 on []). -/
def argmaxIdx : List ℚ → ℕ
  | [] => 0
  | x :: xs => if listMax x xs ≤ x then 0 else argmaxIdx xs + 1

/-- Python dict lookup on an association list (0 for an absent key,
never hit on the keys actually used). -/
def dictLookup (k : ℕ) : List (ℕ × ℚ) → ℚ
  | [] => 0
  | p :: rest => if k = p.1 then p.2 else dictLookup k rest

/-- Best k pick of plot_silhouette_scores: the key, in sorted key order,
whose silhouette is maximal (first maximal index, as np.argmax). -/
def plot_silhouette_scores (results : List (ℕ × ℚ)) : ℕ :=
  let ks := sortedList (results.map Prod.fst)
  let sils := ks.map (fun j => dictLookup j results)
  ks.getD (argmaxIdx sils) 0

/-! Part 3: bootstrap validation (step5_validation.py lines 28-113).

The per-trial k-medoids labels, the adjusted-rand value and the silhouette
value are outputs of library calls (sklearn_extra.KMedoids.fit_predict,
sklearn.metrics.adjusted_rand_score, sklearn.metrics.silhouette_score)
whose code is not in the repository; a Trial carries them as oracle data.
The repository code embedded here is everything the loop body does with
them: the guard on the silhouette (line 65), the unconditional ari append
(line 72), the pairwise count/co-association updates (lines 74-82), the
normalization (lines 85-86) and the per-cluster stability (lines 88-97).
silhouette_score's own input validation (it raises ValueError unless the
number of distinct labels lies in 2..n_samples-1) is modelled explicitly,
so a trial on which it fails aborts the whole run exactly as an uncaught
exception would. -/

/-- Error kinds raised by the library calls the script makes. -/
inductive PyErr where
  | keyError
  | valueError
deriving DecidableEq

/-- One bootstrap trial: the sorted sampled indices, the labels returned
by the resample clustering (position-aligned with idx_sorted), and the
oracle values of the two library scores for this trial. -/
structure Trial where
  idx_sorted : List ℕ
  boot_labels : List ℕ
  ari : ℚ
  sil : ℚ
deriving DecidableEq

/-- Mutable state of the bootstrap loop: the two n-by-n accumulators and
the two score lists.  The numpy arrays hold floating-point counts, but
every update adds exactly 1 to a zero-initialised entry, so the counters
are natural numbers here. -/
structure BootAcc where
  coassoc : ℕ → ℕ → ℕ
  count_matrix : ℕ → ℕ → ℕ
  ari_scores : List ℚ
  sil_scores : List ℚ

/-- Initial accumulators: np.zeros matrices and empty score lists. -/
def initAcc : BootAcc := ⟨fun _ _ => 0, fun _ _ => 0, [], []⟩

/-- Add 1 to a single matrix entry. -/
def bump (M : ℕ → ℕ → ℕ) (i j : ℕ) : ℕ → ℕ → ℕ :=
  fun x y => if x = i ∧ y = j then M x y + 1 else M x y

/-- Position pairs (a, b) with a < b < m, in loop order: embeds
for a in range(m): for b in range(a+1, m). -/
def posPairs (m : ℕ) : List (ℕ × ℕ) :=
  (List.range m).flatMap (fun a => ((List.range m).drop (a + 1)).map (fun b => (a, b)))

/-- Body of the pair loop (lines 77-82): increment both symmetric count
entries at the sampled indices, and both co-association entries when the
two positions carry the same resample label. -/
def pairStep (idx labels : List ℕ) (acc : BootAcc) (p : ℕ × ℕ) : BootAcc :=
  let ia := idx.getD p.1 0
  let ib := idx.getD p.2 0
  let acc1 := { acc with count_matrix := bump (bump acc.count_matrix ia ib) ib ia }
  if labels.getD p.1 0 = labels.getD p.2 0 then
    { acc1 with coassoc := bump (bump acc1.coassoc ia ib) ib ia }
  else acc1

/-- All pair updates of one trial (lines 74-82). -/
def updateCoassoc (tr : Trial) (acc : BootAcc) : BootAcc :=
  (posPairs tr.idx_sorted.length).foldl (pairStep tr.idx_sorted tr.boot_labels) acc

/-- Library silhouette_score: validates that the number of distinct labels
lies in 2..n_samples-1 (else ValueError); the score value itself is the
oracle input silVal. -/
def silhouette_score (silVal : ℚ) (labels : List ℕ) (n : ℕ) : Except PyErr ℚ :=
  let nl := labels.dedup.length
  if 2 ≤ nl ∧ nl + 1 ≤ n then Except.ok silVal else Except.error PyErr.valueError

/-- One iteration of the bootstrap loop (lines 52-82): silhouette appended
only behind the len(set(labels)) > 1 guard, ari appended unconditionally,
then the pair updates.  An exception from silhouette_score propagates. -/
def processTrial (acc : BootAcc) (tr : Trial) : Except PyErr BootAcc :=
  let step1 : Except PyErr BootAcc :=
    if 1 < tr.boot_labels.dedup.length then
      match silhouette_score tr.sil tr.boot_labels tr.idx_sorted.length with
      | Except.error e => Except.error e
      | Except.ok s => Except.ok { acc with sil_scores := acc.sil_scores ++ [s] }
    else Except.ok acc
  match step1 with
  | Except.error e => Except.error e
  | Except.ok acc1 =>
      Except.ok (updateCoassoc tr
        { acc1 with ari_scores := acc1.ari_scores ++ [tr.ari] })

/-- The bootstrap loop from a given accumulator state: an uncaught
exception in a trial aborts the remaining iterations. -/
def runTrials (acc : BootAcc) : List Trial → Except PyErr BootAcc
  | [] => Except.ok acc
  | tr :: rest =>
      match processTrial acc tr with
      | Except.error e => Except.error e
      | Except.ok acc1 => runTrials acc1 rest

/-- The whole bootstrap loop over its trials (lines 44-82). -/
def bootstrap_validation (trials : List Trial) : Except PyErr BootAcc :=
  runTrials initAcc trials

/-- Normalized co-association (lines 85-86):
np.where(count_matrix > 0, coassoc / count_matrix, 0). -/
def stability_matrix (acc : BootAcc) (i j : ℕ) : ℚ :=
  if 0 < acc.count_matrix i j then
    (acc.coassoc i j : ℚ) / (acc.count_matrix i j : ℚ)
  else 0

/-- Indices of the members of original cluster c (line 91:
np.where(original_labels == c)[0]). -/
def membersOf (original_labels : List ℕ) (c : ℕ) : List ℕ :=
  (List.range original_labels.length).filter
    (fun i => original_labels.getD i 0 = c)

/-- The off-diagonal entries of the members-by-members submatrix, the
values over which np.nanmean averages after np.fill_diagonal(pairs, nan)
(lines 93-94): positions (a, b) with a different from b, values at the
corresponding member indices. -/
def offDiagVals (S : ℕ → ℕ → ℚ) (members : List ℕ) : List ℚ :=
  (List.range members.length).flatMap (fun a =>
    ((List.range members.length).filter (fun b => ¬ b = a)).map
      (fun b => S (members.getD a 0) (members.getD b 0)))

/-- Per-cluster stability (lines 92-97): off-diagonal submatrix mean for a
cluster with more than one member, 1.0 otherwise. -/
def cluster_stability (S : ℕ → ℕ → ℚ) (members : List ℕ) : ℚ :=
  if 1 < members.length then
    (offDiagVals S members).sum / ((offDiagVals S members).length : ℚ)
  else 1

/-- Stated from the spec for comparison: the normalized co-association
values over all ordered pairs of distinct member indices. -/
def specPairVals (S : ℕ → ℕ → ℚ) (members : List ℕ) : List ℚ :=
  members.flatMap (fun i => (members.filter (fun j => ¬ j = i)).map (fun j => S i j))

/-- Stated from the spec for comparison: the mean of normalized
co-association over all pairs of distinct member indices. -/
def specPairMean (S : ℕ → ℕ → ℚ) (members : List ℕ) : ℚ :=
  (specPairVals S members).sum / ((specPairVals S members).length : ℚ)

/-! Part 4: feature preparation (step3_clustering.py lines 29-67).

A DataFrame is an association list of named columns; a cell is a rational,
a string, or the missing value NaN.  Library validation behaviour is
modelled where the script relies on it: a column access on a missing name
raises pandas KeyError; sklearn StandardScaler.fit_transform raises
ValueError when given 0 rows or any non-numeric/NaN cell.  The scaler's
numeric output (mean/variance standardisation, which is irrational) is
abstracted as an oracle function of the column values. -/

/-- One cell of a pandas DataFrame. -/
inductive PdVal where
  | na
  | num (q : ℚ)
  | str (s : String)
deriving DecidableEq

/-- A pandas DataFrame: named columns of equal length. -/
structure DataFrame where
  cols : List (String × List PdVal)

/-- Column access df[name]: KeyError when the column is absent. -/
def getCol (df : DataFrame) (name : String) : Except PyErr (List PdVal) :=
  match df.cols.find? (fun p => p.1 = name) with
  | some p => Except.ok p.2
  | none => Except.error PyErr.keyError

/-- Column assignment df[name] = v for a present column. -/
def setCol (df : DataFrame) (name : String) (v : List PdVal) : DataFrame :=
  ⟨df.cols.map (fun p => if p.1 = name then (p.1, v) else p)⟩

/-- Is the cell a number. -/
def isNum : PdVal → Bool
  | PdVal.num _ => true
  | _ => false

/-- Numeric value of a cell, 0 otherwise. -/
def toNumD : PdVal → ℚ
  | PdVal.num q => q
  | _ => 0

/-- The numeric values of a column, NaN and strings skipped. -/
def numsOf (l : List PdVal) : List ℚ :=
  l.filterMap (fun v => match v with | PdVal.num q => some q | _ => none)

/-- pandas Series.median(): median of the non-missing values (NaN when
there are none). -/
def median (l : List PdVal) : PdVal :=
  let s := sortedList (numsOf l)
  let k := s.length
  if k = 0 then PdVal.na
  else if k % 2 = 1 then PdVal.num (s.getD (k / 2) 0)
  else PdVal.num ((s.getD (k / 2 - 1) 0 + s.getD (k / 2) 0) / 2)

/-- pandas Series.fillna. -/
def fillna (l : List PdVal) (v : PdVal) : List PdVal :=
  l.map (fun x => if x = PdVal.na then v else x)

/-- sklearn StandardScaler.fit_transform on one column: ValueError on an
empty column or any non-numeric/NaN cell (sklearn check_array), else the
oracle standardisation of the values. -/
def fit_transform (scale : List ℚ → List ℚ) (col : List PdVal) :
    Except PyErr (List ℚ) :=
  if col.length = 0 then Except.error PyErr.valueError
  else if col.any (fun v => ¬ isNum v = true) then Except.error PyErr.valueError
  else Except.ok (scale (numsOf col))

/-- Distinct observed non-missing categories of a column. -/
def dummyVals (col : List PdVal) : List PdVal :=
  (col.filter (fun v => ¬ v = PdVal.na)).dedup

/-- Printable name of a category value. -/
def valName : PdVal → String
  | PdVal.na => "nan"
  | PdVal.num q => toString q
  | PdVal.str s => s

/-- pd.get_dummies(..., drop_first=False) on one column: one 0/1 indicator
column per observed category, none dropped. -/
def get_dummies (name : String) (col : List PdVal) : List (String × List ℚ) :=
  (dummyVals col).map (fun v =>
    (name ++ "_" ++ valName v, col.map (fun x => if x = v then (1 : ℚ) else 0)))

/-- The NUMERICAL_FEATURES list (step3_clustering.py lines 29-32). -/
def NUMERICAL_FEATURES : List String :=
  ["age_months", "PatientWeight", "num_distinct_drugs",
   "num_antibiotics", "prescriber_antibiotic_rate"]

/-- The BINARY_FEATURES list (lines 33-35). -/
def BINARY_FEATURES : List String :=
  ["has_antibiotic", "antibiotic_combination", "polypharmacy_flag"]

/-- The CATEGORICAL_FEATURES list (line 36). -/
def CATEGORICAL_FEATURES : List String :=
  ["age_stratum", "Gender", "VisitType"]

/-- df[names]: every named column, KeyError as soon as one is absent. -/
def getCols (df : DataFrame) : List String → Except PyErr (List (String × List PdVal))
  | [] => Except.ok []
  | nm :: rest =>
      match getCol df nm with
      | Except.error e => Except.error e
      | Except.ok c =>
          match getCols df rest with
          | Except.error e => Except.error e
          | Except.ok tail => Except.ok ((nm, c) :: tail)

/-- Scale every numerical column (scaler.fit_transform over the columns of
df[NUMERICAL_FEATURES]), renaming each to name_scaled (lines 47-52). -/
def scaleCols (scale : List ℚ → List ℚ) :
    List (String × List PdVal) → Except PyErr (List (String × List ℚ))
  | [] => Except.ok []
  | p :: rest =>
      match fit_transform scale p.2 with
      | Except.error e => Except.error e
      | Except.ok s =>
          match scaleCols scale rest with
          | Except.error e => Except.error e
          | Except.ok tail => Except.ok ((p.1 ++ "_scaled", s) :: tail)

/-- prepare_features (lines 39-67): fill missing PatientWeight with the
column median, scale the numerical features, keep the binary features,
one-hot the categorical features, and concatenate.  There is no input
validation of its own: every failure is a pandas KeyError (missing
column) or an sklearn ValueError (empty or non-numeric data), raised
mid-function at the step that touches the offending data. -/
def prepare_features (scale : List ℚ → List ℚ) (df : DataFrame) :
    Except PyErr (List (String × List ℚ)) :=
  match getCol df "PatientWeight" with
  | Except.error e => Except.error e
  | Except.ok w =>
    let df1 := setCol df "PatientWeight" (fillna w (median w))
    match getCols df1 NUMERICAL_FEATURES with
    | Except.error e => Except.error e
    | Except.ok numCols =>
      match scaleCols scale numCols with
      | Except.error e => Except.error e
      | Except.ok numScaled =>
        match getCols df1 BINARY_FEATURES with
        | Except.error e => Except.error e
        | Except.ok binCols =>
          match getCols df1 CATEGORICAL_FEATURES with
          | Except.error e => Except.error e
          | Except.ok catCols =>
              Except.ok (numScaled ++
                binCols.map (fun p => (p.1, p.2.map toNumD)) ++
                catCols.flatMap (fun p => get_dummies p.1 p.2))

/-! Part 5: the k scan (step3_clustering.py lines 70-90).

KMedoids.fit_predict is a library optimiser; its labels are an oracle of
(k, random_state, n).  Its input validation is modelled: sklearn_extra
raises ValueError when n_clusters exceeds the number of samples.  The
silhouette of each clustering is the silhouette_score call of Part 3.
No exception is caught anywhere in the scan, so the first failing k
aborts the whole scan. -/

/-- Library KMedoids(...).fit_predict on the precomputed n-by-n distance
matrix: ValueError when k > n, else the oracle labels. -/
def kmedoids_fit_predict (kmOracle : ℕ → ℕ → ℕ → List ℕ) (k seed n : ℕ) :
    Except PyErr (List ℕ) :=
  if n < k then Except.error PyErr.valueError else Except.ok (kmOracle k seed n)

/-- Number of rows of a feature matrix given as named columns. -/
def nRows (fm : List (String × List ℚ)) : ℕ := ((fm.headD ("", [])).2).length

/-- The k loop of compute_gower_and_cluster (lines 80-88): for each k run
KMedoids with random_state=42 on the precomputed distance matrix, score
the labels with silhouette_score, and collect the (k, labels, silhouette)
table.  No handler anywhere: the first ValueError aborts the whole scan. -/
def scanK (kmOracle : ℕ → ℕ → ℕ → List ℕ) (silOracle : List ℕ → ℚ) (n : ℕ) :
    List ℕ → Except PyErr (List (ℕ × List ℕ × ℚ))
  | [] => Except.ok []
  | k :: rest =>
      match kmedoids_fit_predict kmOracle k 42 n with
      | Except.error e => Except.error e
      | Except.ok labels =>
          match silhouette_score (silOracle labels) labels n with
          | Except.error e => Except.error e
          | Except.ok sil =>
              match scanK kmOracle silOracle n rest with
              | Except.error e => Except.error e
              | Except.ok tail => Except.ok ((k, labels, sil) :: tail)

/-- compute_gower_and_cluster (lines 70-90): build the categorical mask
from the column names (a column is categorical unless its name ends in
_scaled), form the Gower columns, then scan the k range. -/
def compute_gower_and_cluster (kmOracle : ℕ → ℕ → ℕ → List ℕ)
    (silOracle : List ℕ → ℚ) (fm : List (String × List ℚ)) (k_range : List ℕ) :
    Except PyErr (List GCol × List (ℕ × List ℕ × ℚ)) :=
  let gcols := fm.map (fun p => GCol.mk (!(p.1.endsWith "_scaled")) p.2)
  match scanK kmOracle silOracle (nRows fm) k_range with
  | Except.error e => Except.error e
  | Except.ok results => Except.ok (gcols, results)

/-- The full step-3 stage: feature preparation then the k scan.  Any error
raised in prepare_features propagates before any distance or clustering
computation happens. -/
def step3_run (scale : List ℚ → List ℚ) (kmOracle : ℕ → ℕ → ℕ → List ℕ)
    (silOracle : List ℕ → ℚ) (df : DataFrame) (k_range : List ℕ) :
    Except PyErr (List GCol × List (ℕ × List ℕ × ℚ)) :=
  match prepare_features scale df with
  | Except.error e => Except.error e
  | Except.ok fm => compute_gower_and_cluster kmOracle silOracle fm k_range

/-! Part 6: the bootstrap sample draw (step5_validation.py line 49).

The script calls np.random.choice(n, size=sample_size, replace=False)
with NO seed: the draw reads numpy's process-global generator, which
nothing in the repository ever seeds.  The hidden global generator is
modelled as an explicit integer state threaded through the draws, with a
concrete linear-congruential step standing in for the library generator;
the initial state s0 is ambient process state, an input the program does
not derive from any of its own parameters (there is no seed_base anywhere
in the code). -/

/-- One step of the modelled global generator. -/
def lcg (s : ℕ) : ℕ := (s * 1103515245 + 12345) % 2147483648

/-- Draw one element from the remaining pool. -/
def drawStep (avail : List ℕ) (s : ℕ) : ℕ × List ℕ × ℕ :=
  let s1 := lcg s
  let r := s1 % avail.length
  (avail.getD r 0, avail.eraseIdx r, s1)

/-- Draw m elements without replacement. -/
def drawAux : ℕ → List ℕ → ℕ → List ℕ × ℕ
  | 0, _, s => ([], s)
  | Nat.succ m, avail, s =>
      let d := drawStep avail s
      let rest := drawAux m d.2.1 d.2.2
      (d.1 :: rest.1, rest.2)

/-- np.random.choice(n, size=m, replace=False) on the modelled global
generator state: m distinct indices below n, and the advanced state. -/
def np_random_choice (s : ℕ) (n m : ℕ) : List ℕ × ℕ :=
  drawAux m (List.range n) s

/-- Global generator state when iteration t starts: the initial ambient
state advanced by the t previous draws. -/
def rngStateAt (s0 n m : ℕ) : ℕ → ℕ
  | 0 => s0
  | Nat.succ t => (np_random_choice (rngStateAt s0 n m t) n m).2

/-- idx_sorted at bootstrap iteration t (lines 49-50): the t-th unseeded
global draw, sorted.  A function of the ambient state s0, not of any
seed the program provides. -/
def bootstrap_idx (s0 n m t : ℕ) : List ℕ :=
  sortedList (np_random_choice (rngStateAt s0 n m t) n m).1

lemma le_listMax (x : ℚ) (l : List ℚ) : x ≤ listMax x l := by
  induction l with
  | nil => simp [listMax]
  | cons a l ih =>
      simp only [listMax, List.foldr] at *
      exact le_trans ih (le_max_right _ _)

lemma mem_le_listMax (x y : ℚ) (l : List ℚ) (hy : y ∈ l) : y ≤ listMax x l := by
  induction l with
  | nil => cases hy
  | cons a l ih =>
      rcases List.mem_cons.mp hy with h | h
      · subst h; exact le_max_left _ _
      · exact le_trans (ih h) (le_max_right _ _)

lemma listMin_le (x : ℚ) (l : List ℚ) : listMin x l ≤ x := by
  induction l with
  | nil => simp [listMin]
  | cons a l ih =>
      simp only [listMin, List.foldr] at *
      exact le_trans (min_le_right _ _) ih

lemma listMin_le_mem (x y : ℚ) (l : List ℚ) (hy : y ∈ l) : listMin x l ≤ y := by
  induction l with
  | nil => cases hy
  | cons a l ih =>
      rcases List.mem_cons.mp hy with h | h
      · subst h; exact min_le_left _ _
      · exact le_trans (min_le_right _ _) (ih h)

lemma mem_le_colMax (v : List ℚ) (y : ℚ) (hy : y ∈ v) : y ≤ colMax v := by
  cases v with
  | nil => cases hy
  | cons x l =>
      rcases List.mem_cons.mp hy with h | h
      · subst h; exact le_listMax _ _
      · exact mem_le_listMax _ _ _ h

lemma colMin_le_mem (v : List ℚ) (y : ℚ) (hy : y ∈ v) : colMin v ≤ y := by
  cases v with
  | nil => cases hy
  | cons x l =>
      rcases List.mem_cons.mp hy with h | h
      · subst h; exact listMin_le _ _
      · exact listMin_le_mem _ _ _ h

lemma colRange_nonneg (v : List ℚ) (hv : v ≠ []) : 0 ≤ colRange v := by
  cases v with
  | nil => exact absurd rfl hv
  | cons x l =>
      have h1 : x ≤ colMax (x :: l) := mem_le_colMax _ _ (List.mem_cons_self _ _)
      have h2 : colMin (x :: l) ≤ x := colMin_le_mem _ _ (List.mem_cons_self _ _)
      have := le_trans h2 h1
      simp only [colRange]
      linarith

lemma getD_mem_of_lt (l : List ℚ) (i : ℕ) (h : i < l.length) : l.getD i 0 ∈ l := by
  induction l generalizing i with
  | nil => simp at h
  | cons a l ih =>
      cases i with
      | zero => simp [List.getD]
      | succ k =>
          simp only [List.getD_cons_succ]
          exact List.mem_cons.mpr (Or.inr (ih k (by simpa using h)))

lemma colRange_pos (v : List ℚ) (hv : v ≠ []) (hr : colRange v ≠ 0) :
    0 < colRange v :=
  lt_of_le_of_ne (colRange_nonneg _ hv) (Ne.symm hr)

lemma colDissim_symm (c : GCol) (i j : ℕ) : colDissim c i j = colDissim c j i := by
  simp only [colDissim]
  by_cases hc : c.isCat = true
  · rw [if_pos hc, if_pos hc]
    by_cases h : c.vals.getD i 0 = c.vals.getD j 0
    · rw [if_pos h, if_pos h.symm]
    · rw [if_neg h, if_neg (fun he => h he.symm)]
  · rw [if_neg hc, if_neg hc, abs_sub_comm]

lemma colDissim_self (c : GCol) (i : ℕ) : colDissim c i i = 0 := by
  simp only [colDissim]
  by_cases hc : c.isCat = true
  · rw [if_pos hc]; simp
  · rw [if_neg hc]
    by_cases hr : colRange c.vals = 0
    · rw [if_pos hr]
    · rw [if_neg hr, sub_self, abs_zero, zero_div]

lemma colDissim_nonneg (c : GCol) (i j : ℕ) : 0 ≤ colDissim c i j := by
  simp only [colDissim]
  by_cases hc : c.isCat = true
  · rw [if_pos hc]
    by_cases h : c.vals.getD i 0 = c.vals.getD j 0
    · rw [if_pos h]
    · rw [if_neg h]; norm_num
  · rw [if_neg hc]
    by_cases hr : colRange c.vals = 0
    · rw [if_pos hr]
    · rw [if_neg hr]
      by_cases hv : c.vals = []
      · rw [hv] at hr; simp [colRange, colMax, colMin] at hr
      · exact div_nonneg (abs_nonneg _) (colRange_pos _ hv hr).le

lemma colDissim_le_one (c : GCol) (i j : ℕ) (n : ℕ)
    (hlen : c.vals.length = n) (hi : i < n) (hj : j < n) :
    colDissim c i j ≤ 1 := by
  simp only [colDissim]
  by_cases hc : c.isCat = true
  · rw [if_pos hc]
    by_cases h : c.vals.getD i 0 = c.vals.getD j 0
    · rw [if_pos h]; norm_num
    · rw [if_neg h]
  · rw [if_neg hc]
    by_cases hr : colRange c.vals = 0
    · rw [if_pos hr]; norm_num
    · rw [if_neg hr]
      have hvi : c.vals.getD i 0 ∈ c.vals := getD_mem_of_lt c.vals i (by omega)
      have hvj : c.vals.getD j 0 ∈ c.vals := getD_mem_of_lt c.vals j (by omega)
      have hub1 : c.vals.getD i 0 ≤ colMax c.vals := mem_le_colMax _ _ hvi
      have hlb2 : colMin c.vals ≤ c.vals.getD j 0 := colMin_le_mem _ _ hvj
      have hub2 : c.vals.getD j 0 ≤ colMax c.vals := mem_le_colMax _ _ hvj
      have hlb1 : colMin c.vals ≤ c.vals.getD i 0 := colMin_le_mem _ _ hvi
      have habs : |c.vals.getD i 0 - c.vals.getD j 0| ≤ colRange c.vals := by
        rw [abs_sub_le_iff]
        constructor <;> (simp only [colRange]; linarith)
      have hv : c.vals ≠ [] := by
        intro hv; rw [hv] at hlen; simp at hlen; omega
      rw [div_le_one (colRange_pos _ hv hr)]
      exact habs

lemma list_sum_nonneg (l : List ℚ) (h : ∀ x ∈ l, 0 ≤ x) : 0 ≤ l.sum := by
  induction l with
  | nil => simp
  | cons a l ih =>
      simp only [List.sum_cons]
      have ha := h a (List.mem_cons_self _ _)
      have hl := ih (fun x hx => h x (List.mem_cons.mpr (Or.inr hx)))
      linarith

lemma list_sum_le_length (l : List ℚ) (h : ∀ x ∈ l, x ≤ 1) :
    l.sum ≤ (l.length : ℚ) := by
  induction l with
  | nil => simp
  | cons a l ih =>
      simp only [List.sum_cons, List.length_cons]
      have ha := h a (List.mem_cons_self _ _)
      have hl := ih (fun x hx => h x (List.mem_cons.mpr (Or.inr hx)))
      push_cast
      linarith

lemma gower_matrix_symm (cols : List GCol) (i j : ℕ) :
    gower_matrix cols i j = gower_matrix cols j i := by
  have h : (fun c => colDissim c i j) = (fun c => colDissim c j i) :=
    funext fun c => colDissim_symm c i j
  simp only [gower_matrix, h]

lemma gower_matrix_diag (cols : List GCol) (i : ℕ) :
    gower_matrix cols i i = 0 := by
  have h : (cols.map fun c => colDissim c i i) = cols.map fun _ => (0 : ℚ) := by
    have h' : (fun c => colDissim c i i) = (fun _ : GCol => (0 : ℚ)) :=
      funext fun c => colDissim_self c i
    rw [h']
  simp [gower_matrix, h, List.map_const]

lemma gower_matrix_nonneg (cols : List GCol) (i j : ℕ) :
    0 ≤ gower_matrix cols i j := by
  apply div_nonneg
  · apply list_sum_nonneg
    intro x hx
    rcases List.mem_map.mp hx with ⟨c, _, hc⟩
    exact hc ▸ colDissim_nonneg c i j
  · exact_mod_cast Nat.zero_le _

lemma gower_matrix_le_one (cols : List GCol) (n : ℕ)
    (hcols : cols ≠ []) (hlen : ∀ c ∈ cols, c.vals.length = n)
    (i j : ℕ) (hi : i < n) (hj : j < n) :
    gower_matrix cols i j ≤ 1 := by
  have hsum : (cols.map fun c => colDissim c i j).sum ≤
      ((cols.map fun c => colDissim c i j).length : ℚ) := by
    apply list_sum_le_length
    intro x hx
    rcases List.mem_map.mp hx with ⟨c, hc, hcx⟩
    exact hcx ▸ colDissim_le_one c i j n (hlen c hc) hi hj
  have hlenpos : 0 < (cols.length : ℚ) := by
    have : 0 < cols.length := List.length_pos.mpr hcols
    exact_mod_cast this
  rw [gower_matrix, div_le_one hlenpos]
  simpa using hsum

/-- C2: for every valid feature matrix (at least 2 rows, at least 1
column), the Gower distance matrix is symmetric, has a zero diagonal, and
every entry lies in the interval from 0 to 1. -/
theorem gower_matrix_valid (cols : List GCol) (n : ℕ)
    (hcols : cols ≠ []) (hlen : ∀ c ∈ cols, c.vals.length = n)
    (_hn : 2 ≤ n) (i j : ℕ) (hi : i < n) (hj : j < n) :
    gower_matrix cols i j = gower_matrix cols j i ∧
    gower_matrix cols i i = 0 ∧
    0 ≤ gower_matrix cols i j ∧ gower_matrix cols i j ≤ 1 :=
  ⟨gower_matrix_symm cols i j, gower_matrix_diag cols i,
   gower_matrix_nonneg cols i j,
   gower_matrix_le_one cols n hcols hlen i j hi hj⟩

/-- Witness for C2 at a concrete 2-row matrix with one continuous and one
categorical column. -/
theorem gower_matrix_valid_witness :
    gower_matrix [⟨false, [0, 1]⟩, ⟨true, [2, 2]⟩] 0 1 =
      gower_matrix [⟨false, [0, 1]⟩, ⟨true, [2, 2]⟩] 1 0 ∧
    gower_matrix [⟨false, [0, 1]⟩, ⟨true, [2, 2]⟩] 0 0 = 0 ∧
    0 ≤ gower_matrix [⟨false, [0, 1]⟩, ⟨true, [2, 2]⟩] 0 1 ∧
    gower_matrix [⟨false, [0, 1]⟩, ⟨true, [2, 2]⟩] 0 1 ≤ 1 :=
  gower_matrix_valid [⟨false, [0, 1]⟩, ⟨true, [2, 2]⟩] 2
    (by decide) (by decide) (by decide) 0 1 (by decide) (by decide)

lemma listMax_le (x z : ℚ) (l : List ℚ) (hx : x ≤ z) (hl : ∀ y ∈ l, y ≤ z) :
    listMax x l ≤ z := by
  induction l with
  | nil => simpa [listMax]
  | cons a t ih =>
      simp only [listMax, List.foldr] at *
      exact max_le (hl a (List.mem_cons_self _ _))
        (ih (fun y hy => hl y (List.mem_cons.mpr (Or.inr hy))))

lemma argmaxIdx_max (l : List ℚ) : ∀ y ∈ l, y ≤ l.getD (argmaxIdx l) 0 := by
  induction l with
  | nil => intro y hy; cases hy
  | cons x xs ih =>
      intro y hy
      by_cases h : listMax x xs ≤ x
      · rw [argmaxIdx, if_pos h]
        rcases List.mem_cons.mp hy with rfl | hy'
        · exact le_refl _
        · exact le_trans (mem_le_listMax x y xs hy') h
      · rw [argmaxIdx, if_neg h]
        simp only [List.getD_cons_succ]
        rcases List.mem_cons.mp hy with rfl | hy'
        · by_contra hcon
          push_neg at hcon
          exact h (listMax_le _ _ _ le_rfl
            (fun z hz => le_trans (ih z hz) hcon.le))
        · exact ih y hy'

lemma argmaxIdx_lt (l : List ℚ) (h : l ≠ []) : argmaxIdx l < l.length := by
  induction l with
  | nil => exact absurd rfl h
  | cons x xs ih =>
      by_cases hc : listMax x xs ≤ x
      · rw [argmaxIdx, if_pos hc]; simp
      · rw [argmaxIdx, if_neg hc]
        have hxs : xs ≠ [] := by
          intro he; rw [he] at hc; exact hc (le_refl x)
        simpa using ih hxs

lemma mem_insertLe {α : Type} [LinearOrder α] (x a : α) (l : List α) :
    a ∈ insertLe x l ↔ a = x ∨ a ∈ l := by
  induction l with
  | nil => simp [insertLe]
  | cons y ys ih =>
      by_cases h : x ≤ y
      · simp only [insertLe, if_pos h, List.mem_cons]
      · simp only [insertLe, if_neg h, List.mem_cons, ih]
        tauto

lemma mem_sortedList {α : Type} [LinearOrder α] (l : List α) (a : α) :
    a ∈ sortedList l ↔ a ∈ l := by
  induction l with
  | nil => simp [sortedList]
  | cons x xs ih =>
      show a ∈ insertLe x (sortedList xs) ↔ _
      rw [mem_insertLe, ih, List.mem_cons]

lemma insertLe_length {α : Type} [LinearOrder α] (x : α) (l : List α) :
    (insertLe x l).length = l.length + 1 := by
  induction l with
  | nil => rfl
  | cons y ys ih =>
      by_cases h : x ≤ y
      · simp [insertLe, h]
      · simp only [insertLe, if_neg h, List.length_cons, ih]

lemma sortedList_length {α : Type} [LinearOrder α] (l : List α) :
    (sortedList l).length = l.length := by
  induction l with
  | nil => rfl
  | cons x xs ih =>
      show (insertLe x (sortedList xs)).length = _
      rw [insertLe_length, ih, List.length_cons]

lemma getD_map_lt (l : List ℕ) (f : ℕ → ℚ) (i : ℕ) (h : i < l.length) :
    (l.map f).getD i 0 = f (l.getD i 0) := by
  induction l generalizing i with
  | nil => simp at h
  | cons x xs ih =>
      cases i with
      | zero => rfl
      | succ k =>
          simp only [List.map_cons, List.getD_cons_succ]
          exact ih k (by simpa using h)

lemma dictLookup_of_mem (results : List (ℕ × ℚ)) (k : ℕ) (s : ℚ)
    (hnd : (results.map Prod.fst).Nodup) (hmem : (k, s) ∈ results) :
    dictLookup k results = s := by
  induction results with
  | nil => cases hmem
  | cons p rest ih =>
      simp only [List.map_cons, List.nodup_cons] at hnd
      rcases List.mem_cons.mp hmem with he | hmem'
      · rw [← he]
        simp [dictLookup]
      · have hk : ¬ k = p.1 := by
          intro he
          exact hnd.1 (he ▸ List.mem_map.mpr ⟨(k, s), hmem', rfl⟩)
        rw [dictLookup, if_neg hk]
        exact ih hnd.2 hmem'

/-- C3: the k selected by plot_silhouette_scores has a silhouette greater
than or equal to the silhouette of every candidate k in the table. -/
theorem best_k_cohesion_maximal (results : List (ℕ × ℚ))
    (hne : results ≠ []) (hnd : (results.map Prod.fst).Nodup)
    (k : ℕ) (s : ℚ) (hmem : (k, s) ∈ results) :
    s ≤ dictLookup (plot_silhouette_scores results) results := by
  have hkmem : k ∈ results.map Prod.fst := List.mem_map.mpr ⟨(k, s), hmem, rfl⟩
  have hkks : k ∈ sortedList (results.map Prod.fst) :=
    (mem_sortedList _ _).mpr hkmem
  have hlk : dictLookup k results = s := dictLookup_of_mem _ _ _ hnd hmem
  have hsmem : dictLookup k results ∈
      (sortedList (results.map Prod.fst)).map (fun j => dictLookup j results) :=
    List.mem_map.mpr ⟨k, hkks, rfl⟩
  have hkslen : 0 < (sortedList (results.map Prod.fst)).length := by
    rw [sortedList_length, List.length_map]
    exact List.length_pos.mpr hne
  have hne' : (sortedList (results.map Prod.fst)).map
      (fun j => dictLookup j results) ≠ [] := by
    intro he
    have := congrArg List.length he
    simp only [List.length_map, List.length_nil] at this
    omega
  have hmax := argmaxIdx_max _ _ hsmem
  have hlt := argmaxIdx_lt _ hne'
  rw [List.length_map] at hlt
  rw [getD_map_lt _ _ _ hlt] at hmax
  rw [← hlk]
  simpa [plot_silhouette_scores] using hmax

/-- Witness for C3 at a concrete three-candidate table. -/
theorem best_k_cohesion_maximal_witness :
    (1 : ℚ) / 2 ≤ dictLookup
      (plot_silhouette_scores [(3, 1/2), (4, 3/4), (5, 1/4)])
      [(3, 1/2), (4, 3/4), (5, 1/4)] :=
  best_k_cohesion_maximal [(3, 1/2), (4, 3/4), (5, 1/4)]
    (by simp) (by decide) 3 (1/2) (List.mem_cons_self _ _)

lemma bump2_pointwise (M : ℕ → ℕ → ℕ) (ia ib x y : ℕ) :
    bump (bump M ia ib) ib ia x y =
      M x y + (if x = ia ∧ y = ib then 1 else 0) +
        (if x = ib ∧ y = ia then 1 else 0) := by
  simp only [bump]
  by_cases c1 : x = ib ∧ y = ia <;> by_cases c2 : x = ia ∧ y = ib <;>
    simp [c1, c2] <;> (first | omega | (split_ifs <;> omega))

lemma pairStep_coassoc_le (idx labels : List ℕ) (acc : BootAcc) (p : ℕ × ℕ)
    (x y : ℕ) (h : acc.coassoc x y ≤ acc.count_matrix x y) :
    (pairStep idx labels acc p).coassoc x y ≤
      (pairStep idx labels acc p).count_matrix x y := by
  simp only [pairStep]
  by_cases hlab : labels.getD p.1 0 = labels.getD p.2 0
  · rw [if_pos hlab]
    dsimp only
    rw [bump2_pointwise, bump2_pointwise]
    split_ifs <;> omega
  · rw [if_neg hlab]
    dsimp only
    rw [bump2_pointwise]
    split_ifs <;> omega

lemma pairStep_scores (idx labels : List ℕ) (acc : BootAcc) (p : ℕ × ℕ) :
    (pairStep idx labels acc p).ari_scores = acc.ari_scores ∧
    (pairStep idx labels acc p).sil_scores = acc.sil_scores := by
  simp only [pairStep]
  by_cases hlab : labels.getD p.1 0 = labels.getD p.2 0
  · rw [if_pos hlab]; exact ⟨rfl, rfl⟩
  · rw [if_neg hlab]; exact ⟨rfl, rfl⟩

lemma foldl_pairStep_le (idx labels : List ℕ) (ps : List (ℕ × ℕ))
    (acc : BootAcc) (h : ∀ x y, acc.coassoc x y ≤ acc.count_matrix x y) :
    ∀ x y, (ps.foldl (pairStep idx labels) acc).coassoc x y ≤
      (ps.foldl (pairStep idx labels) acc).count_matrix x y := by
  induction ps generalizing acc with
  | nil => exact h
  | cons p ps ih =>
      exact ih _ (fun x y => pairStep_coassoc_le idx labels acc p x y (h x y))

lemma foldl_pairStep_scores (idx labels : List ℕ) (ps : List (ℕ × ℕ))
    (acc : BootAcc) :
    (ps.foldl (pairStep idx labels) acc).ari_scores = acc.ari_scores ∧
    (ps.foldl (pairStep idx labels) acc).sil_scores = acc.sil_scores := by
  induction ps generalizing acc with
  | nil => exact ⟨rfl, rfl⟩
  | cons p ps ih =>
      obtain ⟨h1, h2⟩ := ih (pairStep idx labels acc p)
      obtain ⟨g1, g2⟩ := pairStep_scores idx labels acc p
      exact ⟨h1.trans g1, h2.trans g2⟩

lemma updateCoassoc_le (tr : Trial) (acc : BootAcc)
    (h : ∀ x y, acc.coassoc x y ≤ acc.count_matrix x y) :
    ∀ x y, (updateCoassoc tr acc).coassoc x y ≤
      (updateCoassoc tr acc).count_matrix x y := by
  unfold updateCoassoc
  exact foldl_pairStep_le _ _ _ _ h

lemma processTrial_ok (acc : BootAcc) (tr : Trial) (acc' : BootAcc)
    (hok : processTrial acc tr = Except.ok acc') :
    acc' = updateCoassoc tr
      { acc with
        sil_scores := if 1 < tr.boot_labels.dedup.length
          then acc.sil_scores ++ [tr.sil] else acc.sil_scores,
        ari_scores := acc.ari_scores ++ [tr.ari] } := by
  simp only [processTrial, silhouette_score] at hok
  by_cases hg : 1 < tr.boot_labels.dedup.length
  · rw [if_pos hg] at hok
    by_cases hc : 2 ≤ tr.boot_labels.dedup.length ∧
        tr.boot_labels.dedup.length + 1 ≤ tr.idx_sorted.length
    · rw [if_pos hc] at hok
      rw [if_pos hg]
      exact (Except.ok.inj hok).symm
    · rw [if_neg hc] at hok
      exact Except.noConfusion hok
  · rw [if_neg hg] at hok
    rw [if_neg hg]
    exact (Except.ok.inj hok).symm

lemma runTrials_le (trials : List Trial) (acc0 acc : BootAcc)
    (hok : runTrials acc0 trials = Except.ok acc)
    (h : ∀ x y, acc0.coassoc x y ≤ acc0.count_matrix x y) :
    ∀ x y, acc.coassoc x y ≤ acc.count_matrix x y := by
  induction trials generalizing acc0 with
  | nil =>
      rw [runTrials] at hok
      exact (Except.ok.inj hok) ▸ h
  | cons tr trs ih =>
      rw [runTrials] at hok
      cases hp : processTrial acc0 tr with
      | error e => rw [hp] at hok; exact Except.noConfusion hok
      | ok a1 =>
          rw [hp] at hok
          refine ih a1 hok ?_
          rw [processTrial_ok acc0 tr a1 hp]
          exact updateCoassoc_le _ _ (fun x y => h x y)

lemma bootstrap_inv (trials : List Trial) (acc : BootAcc)
    (hok : bootstrap_validation trials = Except.ok acc) :
    ∀ x y, acc.coassoc x y ≤ acc.count_matrix x y :=
  runTrials_le trials initAcc acc hok (fun _ _ => Nat.le_refl 0)

lemma stability_entry_bounds (acc : BootAcc)
    (hinv : ∀ x y, acc.coassoc x y ≤ acc.count_matrix x y) (i j : ℕ) :
    0 ≤ stability_matrix acc i j ∧ stability_matrix acc i j ≤ 1 := by
  unfold stability_matrix
  by_cases hpos : 0 < acc.count_matrix i j
  · rw [if_pos hpos]
    have hcpos : (0 : ℚ) < (acc.count_matrix i j : ℚ) := by exact_mod_cast hpos
    constructor
    · exact div_nonneg (by exact_mod_cast Nat.zero_le _) hcpos.le
    · rw [div_le_one hcpos]
      exact_mod_cast hinv i j
  · rw [if_neg hpos]
    norm_num

/-- C4: after the accumulation loop, the co-association matrix is
entrywise at most the count matrix (both hold non-negative natural
counts), and wherever the count is positive the normalized entry
coassoc / count lies between 0 and 1. -/
theorem coassoc_le_count (trials : List Trial) (acc : BootAcc)
    (hok : bootstrap_validation trials = Except.ok acc) (i j : ℕ) :
    (0 ≤ (acc.coassoc i j : ℚ) ∧
      (acc.coassoc i j : ℚ) ≤ (acc.count_matrix i j : ℚ)) ∧
    (0 < acc.count_matrix i j →
      0 ≤ stability_matrix acc i j ∧ stability_matrix acc i j ≤ 1) := by
  have hinv := bootstrap_inv trials acc hok
  refine ⟨⟨by exact_mod_cast Nat.zero_le _, by exact_mod_cast hinv i j⟩, ?_⟩
  intro _
  exact stability_entry_bounds acc hinv i j

/-- Witness for C4 on a concrete one-trial run. -/
theorem coassoc_le_count_witness :
    ∃ acc, bootstrap_validation [⟨[0, 1], [0, 0], 1, 0⟩] = Except.ok acc ∧
      0 < acc.count_matrix 0 1 ∧
      (0 ≤ (acc.coassoc 0 1 : ℚ) ∧
        (acc.coassoc 0 1 : ℚ) ≤ (acc.count_matrix 0 1 : ℚ)) ∧
      0 ≤ stability_matrix acc 0 1 ∧ stability_matrix acc 0 1 ≤ 1 := by
  refine ⟨_, rfl, by decide, ?_, ?_⟩
  · exact (coassoc_le_count [⟨[0, 1], [0, 0], 1, 0⟩] _ rfl 0 1).1
  · exact (coassoc_le_count [⟨[0, 1], [0, 0], 1, 0⟩] _ rfl 0 1).2 (by decide)

/-- C10: a pair never seen together (count 0) gets the explicit value 0 in
the normalized matrix, and a pair seen together but never co-clustered
(coassoc 0, count positive) also gets 0, so the two cases are
indistinguishable in the returned stability matrix. -/
theorem never_sampled_pair_zero (trials : List Trial) (acc : BootAcc)
    (_hok : bootstrap_validation trials = Except.ok acc) (i j : ℕ) :
    (acc.count_matrix i j = 0 → stability_matrix acc i j = 0) ∧
    (0 < acc.count_matrix i j → acc.coassoc i j = 0 →
      stability_matrix acc i j = 0) := by
  constructor
  · intro h0
    unfold stability_matrix
    rw [if_neg (by omega)]
  · intro hpos hz
    unfold stability_matrix
    rw [if_pos hpos, hz]
    norm_num

/-- Witness for C10 on a concrete one-trial run: the pair (0, 5) was never
sampled, the pair (0, 1) was sampled once but put in different clusters,
and both get stability 0. -/
theorem never_sampled_pair_zero_witness :
    ∃ acc, bootstrap_validation [⟨[0, 1, 2], [0, 1, 1], 1, 0⟩] = Except.ok acc ∧
      acc.count_matrix 0 5 = 0 ∧ stability_matrix acc 0 5 = 0 ∧
      0 < acc.count_matrix 0 1 ∧ acc.coassoc 0 1 = 0 ∧
      stability_matrix acc 0 1 = 0 := by
  refine ⟨_, rfl, by decide, ?_, by decide, by decide, ?_⟩
  · exact (never_sampled_pair_zero [⟨[0, 1, 2], [0, 1, 1], 1, 0⟩] _ rfl 0 5).1
      (by decide)
  · exact (never_sampled_pair_zero [⟨[0, 1, 2], [0, 1, 1], 1, 0⟩] _ rfl 0 1).2
      (by decide) (by decide)

lemma runTrials_scores (trials : List Trial) (acc0 acc : BootAcc)
    (hok : runTrials acc0 trials = Except.ok acc) :
    acc.ari_scores.length = acc0.ari_scores.length + trials.length ∧
    acc.sil_scores.length = acc0.sil_scores.length +
      (trials.filter (fun tr => 1 < tr.boot_labels.dedup.length)).length := by
  induction trials generalizing acc0 with
  | nil =>
      rw [runTrials] at hok
      rw [← Except.ok.inj hok]
      simp
  | cons tr trs ih =>
      rw [runTrials] at hok
      cases hp : processTrial acc0 tr with
      | error e => rw [hp] at hok; exact Except.noConfusion hok
      | ok a1 =>
          rw [hp] at hok
          obtain ⟨h1, h2⟩ := ih a1 hok
          have he := processTrial_ok acc0 tr a1 hp
          have hsc := foldl_pairStep_scores tr.idx_sorted tr.boot_labels
            (posPairs tr.idx_sorted.length)
            { acc0 with
              sil_scores := if 1 < tr.boot_labels.dedup.length
                then acc0.sil_scores ++ [tr.sil] else acc0.sil_scores,
              ari_scores := acc0.ari_scores ++ [tr.ari] }

          rw [he] at h1 h2
          unfold updateCoassoc at h1 h2
          rw [hsc.1] at h1
          rw [hsc.2] at h2
          dsimp only at h1 h2
          constructor
          · rw [h1]
            simp only [List.length_append, List.length_cons, List.length_nil]
            omega
          · rw [h2]
            by_cases hg : 1 < tr.boot_labels.dedup.length
            · rw [if_pos hg]
              have hfc : List.filter
                    (fun t : Trial => decide (1 < t.boot_labels.dedup.length))
                    (tr :: trs) =
                  tr :: List.filter
                    (fun t : Trial => decide (1 < t.boot_labels.dedup.length)) trs :=
                List.filter_cons_of_pos (decide_eq_true hg)
              rw [hfc]
              simp only [List.length_append, List.length_cons, List.length_nil]
              omega
            · rw [if_neg hg]
              have hfc : List.filter
                    (fun t : Trial => decide (1 < t.boot_labels.dedup.length))
                    (tr :: trs) =
                  List.filter
                    (fun t : Trial => decide (1 < t.boot_labels.dedup.length)) trs :=
                List.filter_cons_of_neg (by simpa using hg)
              rw [hfc]

/-- C5 counterexample: a degenerate trial, whose resample clustering
collapsed to a single cluster, is not skipped: its adjusted-rand value is
still recorded, its sampled pairs still update the count and
co-association matrices, and only its silhouette is omitted.  The result
record carries no skip counter of any kind. -/
theorem degenerate_trial_not_skipped :
    ∃ acc, bootstrap_validation [⟨[0, 1], [0, 0], 1, 0⟩] = Except.ok acc ∧
      acc.ari_scores = [1] ∧ acc.sil_scores = [] ∧
      acc.count_matrix 0 1 = 1 ∧ acc.coassoc 0 1 = 1 :=
  ⟨_, rfl, rfl, rfl, by decide, by decide⟩

/-- C5 amended: when the bootstrap loop completes, every trial, degenerate
or not, contributes exactly one adjusted-rand score, and the silhouette
list holds one entry per trial whose resample labels had more than one
distinct value; nothing is skipped and no skip counter exists.  (A trial
on which silhouette_score itself fails aborts the whole run instead of
being skipped.) -/
theorem trial_score_accounting (trials : List Trial) (acc : BootAcc)
    (hok : bootstrap_validation trials = Except.ok acc) :
    acc.ari_scores.length = trials.length ∧
    acc.sil_scores.length =
      (trials.filter (fun tr => 1 < tr.boot_labels.dedup.length)).length := by
  have h := runTrials_scores trials initAcc acc hok
  simpa [initAcc] using h

/-- Witness for C5 amended on a concrete two-trial run with one degenerate
and one non-degenerate trial. -/
theorem trial_score_accounting_witness :
    ∃ acc, bootstrap_validation
        [⟨[0, 1], [0, 0], 1, 0⟩, ⟨[0, 1, 2], [0, 1, 1], 1, 0⟩] =
        Except.ok acc ∧
      acc.ari_scores.length = 2 ∧ acc.sil_scores.length = 1 := by
  refine ⟨_, rfl, ?_⟩
  have h := trial_score_accounting
    [⟨[0, 1], [0, 0], 1, 0⟩, ⟨[0, 1, 2], [0, 1, 1], 1, 0⟩] _ rfl
  refine ⟨h.1.trans (by decide), h.2.trans (by decide)⟩

/-- C9: an original cluster with exactly one member is assigned stability
exactly 1, even though it has no member pairs to average over. -/
theorem singleton_cluster_stability (trials : List Trial) (acc : BootAcc)
    (_hok : bootstrap_validation trials = Except.ok acc)
    (original_labels : List ℕ) (c : ℕ)
    (h1 : (membersOf original_labels c).length = 1) :
    cluster_stability (stability_matrix acc) (membersOf original_labels c) = 1 := by
  unfold cluster_stability
  rw [if_neg (by omega)]

/-- Witness for C9: a run with no trials and a single subject labelled 5. -/
theorem singleton_cluster_stability_witness :
    cluster_stability (stability_matrix initAcc) (membersOf [5] 5) = 1 :=
  singleton_cluster_stability [] initAcc rfl [5] 5 (by decide)

lemma map_getD_range (l : List ℕ) :
    (List.range l.length).map (fun a => l.getD a 0) = l := by
  induction l with
  | nil => rfl
  | cons x xs ih =>
      rw [List.length_cons, List.range_succ_eq_map, List.map_cons, List.map_map]
      have h : ((fun a => (x :: xs).getD a 0) ∘ Nat.succ) = (fun a => xs.getD a 0) :=
        funext fun a => rfl
      rw [h, ih]
      rfl

lemma membersOf_nodup (labels : List ℕ) (c : ℕ) : (membersOf labels c).Nodup :=
  List.Nodup.filter _ (List.nodup_range _)

lemma nodup_getD_inj (l : List ℕ) (hnd : l.Nodup) (a b : ℕ)
    (ha : a < l.length) (hb : b < l.length) :
    (l.getD a 0 = l.getD b 0) ↔ a = b := by
  rw [List.getD_eq_getElem l 0 ha, List.getD_eq_getElem l 0 hb]
  exact hnd.getElem_inj_iff

lemma flatMap_congr {β : Type} (l : List ℕ) (f g : ℕ → List β)
    (h : ∀ a ∈ l, f a = g a) : l.flatMap f = l.flatMap g := by
  induction l with
  | nil => rfl
  | cons x xs ih =>
      rw [List.flatMap_cons, List.flatMap_cons, h x (List.mem_cons_self _ _),
        ih (fun a ha => h a (List.mem_cons.mpr (Or.inr ha)))]

lemma offDiagVals_eq_spec (S : ℕ → ℕ → ℚ) (members : List ℕ)
    (hnd : members.Nodup) :
    offDiagVals S members = specPairVals S members := by
  unfold offDiagVals specPairVals
  conv_rhs => rw [← map_getD_range members]
  rw [List.flatMap_map]
  apply flatMap_congr
  intro a ha
  have ham := List.mem_range.mp ha
  rw [List.filter_map (fun b => members.getD b 0) (List.range members.length)]
  rw [List.map_map]
  have hfun : ((fun j => S (members.getD a 0) j) ∘ (fun b => members.getD b 0)) =
      (fun b => S (members.getD a 0) (members.getD b 0)) := rfl
  rw [hfun]
  congr 1
  apply List.filter_congr
  intro b hb
  have hbm := List.mem_range.mp hb
  dsimp only [Function.comp]
  exact decide_eq_decide.mpr
    (not_congr (by rw [nodup_getD_inj members hnd b a hbm ham]))

lemma mem_offDiagVals (S : ℕ → ℕ → ℚ) (members : List ℕ) (x : ℚ)
    (hx : x ∈ offDiagVals S members) : ∃ i j, x = S i j := by
  unfold offDiagVals at hx
  rcases List.mem_flatMap.mp hx with ⟨a, _, hmem⟩
  rcases List.mem_map.mp hmem with ⟨b, _, hb⟩
  exact ⟨_, _, hb.symm⟩

lemma offDiagVals_ne_nil (S : ℕ → ℕ → ℚ) (members : List ℕ)
    (hm : 1 < members.length) : offDiagVals S members ≠ [] := by
  have hmem : S (members.getD 0 0) (members.getD 1 0) ∈ offDiagVals S members := by
    unfold offDiagVals
    apply List.mem_flatMap.mpr
    refine ⟨0, List.mem_range.mpr (by omega), ?_⟩
    apply List.mem_map.mpr
    refine ⟨1, ?_, rfl⟩
    apply List.mem_filter.mpr
    exact ⟨List.mem_range.mpr (by omega), by decide⟩
  exact List.ne_nil_of_mem hmem

lemma mean_bounds (L : List ℚ) (hne : L ≠ [])
    (h : ∀ x ∈ L, 0 ≤ x ∧ x ≤ 1) :
    0 ≤ L.sum / (L.length : ℚ) ∧ L.sum / (L.length : ℚ) ≤ 1 := by
  have hpos : (0 : ℚ) < (L.length : ℚ) := by
    have := List.length_pos.mpr hne
    exact_mod_cast this
  constructor
  · exact div_nonneg (list_sum_nonneg L fun x hx => (h x hx).1) hpos.le
  · rw [div_le_one hpos]
    exact list_sum_le_length L fun x hx => (h x hx).2

/-- C8: for an original cluster with more than one member, the reported
stability is exactly the mean of the normalized co-association values
over all pairs of distinct member indices, and it lies between 0 and 1. -/
theorem cluster_stability_correct (trials : List Trial) (acc : BootAcc)
    (hok : bootstrap_validation trials = Except.ok acc)
    (original_labels : List ℕ) (c : ℕ)
    (hm : 1 < (membersOf original_labels c).length) :
    cluster_stability (stability_matrix acc) (membersOf original_labels c) =
      specPairMean (stability_matrix acc) (membersOf original_labels c) ∧
    0 ≤ cluster_stability (stability_matrix acc) (membersOf original_labels c) ∧
    cluster_stability (stability_matrix acc) (membersOf original_labels c) ≤ 1 := by
  have hinv := bootstrap_inv trials acc hok
  have hnd := membersOf_nodup original_labels c
  have heq := offDiagVals_eq_spec (stability_matrix acc) _ hnd
  have hne := offDiagVals_ne_nil (stability_matrix acc) _ hm
  have hbounds : ∀ x ∈ offDiagVals (stability_matrix acc)
      (membersOf original_labels c), 0 ≤ x ∧ x ≤ 1 := by
    intro x hx
    rcases mem_offDiagVals _ _ _ hx with ⟨i, j, rfl⟩
    exact stability_entry_bounds acc hinv i j
  have hmean := mean_bounds _ hne hbounds
  constructor
  · unfold cluster_stability specPairMean
    rw [if_pos hm, heq]
  · unfold cluster_stability
    rw [if_pos hm]
    exact hmean

/-- Witness for C8 on a concrete one-trial run with a two-member cluster. -/
theorem cluster_stability_correct_witness :
    ∃ acc, bootstrap_validation [⟨[0, 1, 2], [0, 0, 1], 1, 0⟩] = Except.ok acc ∧
      (cluster_stability (stability_matrix acc) (membersOf [7, 7] 7) =
         specPairMean (stability_matrix acc) (membersOf [7, 7] 7) ∧
       0 ≤ cluster_stability (stability_matrix acc) (membersOf [7, 7] 7) ∧
       cluster_stability (stability_matrix acc) (membersOf [7, 7] 7) ≤ 1) :=
  ⟨_, rfl, cluster_stability_correct [⟨[0, 1, 2], [0, 0, 1], 1, 0⟩] _ rfl
    [7, 7] 7 (by decide)⟩

/-- C6 counterexample: the two failure modes the claim covers do not raise
any InputError at entry.  An empty record set (all required columns
present, zero rows) fails with the sklearn scaler's ValueError, after the
PatientWeight access, the median and the fillna already ran; a record set
missing the required age_months column fails with a pandas KeyError at the
df[NUMERICAL_FEATURES] access.  No InputError class exists anywhere in the
code. -/
theorem prepare_features_failure_kinds :
    prepare_features (fun l => l)
        ⟨[("PatientWeight", []), ("age_months", []), ("num_distinct_drugs", []),
          ("num_antibiotics", []), ("prescriber_antibiotic_rate", []),
          ("has_antibiotic", []), ("antibiotic_combination", []),
          ("polypharmacy_flag", []), ("age_stratum", []), ("Gender", []),
          ("VisitType", [])]⟩ = Except.error PyErr.valueError ∧
    prepare_features (fun l => l) ⟨[("PatientWeight", [PdVal.num 1])]⟩ =
      Except.error PyErr.keyError :=
  ⟨rfl, rfl⟩

/-- C6 amended: whatever error feature preparation raises, it propagates
out of step 3 before any distance or clustering computation is reached. -/
theorem prepare_features_error_precedes_clustering
    (scale : List ℚ → List ℚ) (km : ℕ → ℕ → ℕ → List ℕ)
    (sil : List ℕ → ℚ) (df : DataFrame) (ks : List ℕ) (e : PyErr)
    (h : prepare_features scale df = Except.error e) :
    step3_run scale km sil df ks = Except.error e := by
  unfold step3_run
  rw [h]

/-- Witness for C6 amended: the KeyError of a missing age_months column
aborts the whole step-3 stage. -/
theorem prepare_features_error_precedes_clustering_witness :
    step3_run (fun l => l) (fun _ _ _ => []) (fun _ => 0)
      ⟨[("PatientWeight", [PdVal.num 1])]⟩ [3] = Except.error PyErr.keyError :=
  prepare_features_error_precedes_clustering _ _ _ _ _ _ rfl

/-- C7 counterexample: a 2-subject matrix scanned at k = 3 (the smallest k
of the configured K_RANGE) makes KMedoids raise ValueError (n_clusters
exceeds the number of samples); nothing catches it, so the scan aborts
with that ValueError instead of raising a DegenerateClusteringError or
skipping the k. -/
theorem scan_k_exceeding_n_aborts :
    compute_gower_and_cluster (fun _ _ _ => []) (fun _ => 0)
      [("x_scaled", [0, 1])] [3] = Except.error PyErr.valueError := rfl

lemma scanK_error_of_large (km : ℕ → ℕ → ℕ → List ℕ) (sil : List ℕ → ℚ)
    (n : ℕ) (ks : List ℕ) (k : ℕ) (hk : k ∈ ks) (hn : n < k) :
    ∃ e, scanK km sil n ks = Except.error e := by
  induction ks with
  | nil => cases hk
  | cons k0 rest ih =>
      rcases List.mem_cons.mp hk with he | hk'
      · refine ⟨PyErr.valueError, ?_⟩
        unfold scanK kmedoids_fit_predict
        rw [if_pos (he ▸ hn)]
      · cases hkm : kmedoids_fit_predict km k0 42 n with
        | error e => exact ⟨e, by unfold scanK; simp only [hkm]⟩
        | ok labels =>
            cases hs : silhouette_score (sil labels) labels n with
            | error e => exact ⟨e, by unfold scanK; simp only [hkm, hs]⟩
            | ok s =>
                obtain ⟨e, he⟩ := ih hk'
                exact ⟨e, by unfold scanK; simp only [hkm, hs, he]⟩

/-- C7 amended: whenever the scan range holds any k larger than the number
of subjects, the whole scan returns a library error (it never returns a
table); no DegenerateClusteringError is raised and no k is skipped. -/
theorem scan_aborts_on_large_k (km : ℕ → ℕ → ℕ → List ℕ)
    (sil : List ℕ → ℚ) (fm : List (String × List ℚ)) (ks : List ℕ) (k : ℕ)
    (hk : k ∈ ks) (hn : nRows fm < k) :
    ∃ e, compute_gower_and_cluster km sil fm ks = Except.error e := by
  obtain ⟨e, he⟩ := scanK_error_of_large km sil (nRows fm) ks k hk hn
  refine ⟨e, ?_⟩
  unfold compute_gower_and_cluster
  rw [he]

/-- Witness for C7 amended: the scan range 3..4 over 2 subjects aborts. -/
theorem scan_aborts_on_large_k_witness :
    ∃ e, compute_gower_and_cluster (fun _ _ _ => []) (fun _ => 0)
      [("x_scaled", [0, 1])] [3, 4] = Except.error e :=
  scan_aborts_on_large_k _ _ _ _ 3 (List.mem_cons_self _ _) (by decide)

/-- C1: the index subset drawn at bootstrap iteration 0 is not a function
of any seed the program controls: two runs with identical n = 4,
sample_size = 2, identical iteration number and identical program inputs,
differing only in the ambient state of the never-seeded global numpy
generator, draw different subsets.  (The code has no seed_base at all;
only the KMedoids call is seeded, with random_state = i.) -/
theorem bootstrap_idx_depends_on_ambient_state :
    bootstrap_idx 1 4 2 0 ≠ bootstrap_idx 2 4 2 0 := by decide

end MDClustering
